import Mathlib

/-!
# Verification of the Monte Carlo tail-risk engine

A shallow embedding, over the rationals, of the computational core of the
repository (the files under `Tail End Risk/Mc Engine/`):

* `mc_simulation.py` : `run_single_simulation`, `run_monte_carlo`
* `mc_percentiles.py`: `calculate_cvar`
* `mc_stats.py`      : `calculate_statistics`
* `mc_risk_state.py` : `calculate_risk_state_score`
* `run_analysis.py`  : the target-price percentile-rank query

Conventions of the embedding:

* Python floats are modelled as rationals.  The square root (`np.sqrt`,
  the root hidden inside a standard deviation, ...) is not rational, so
  every definition that needs it takes an explicit function
  `sqrt : Rat -> Rat` as a parameter; no theorem below relies on any
  property of that function unless it states the property as a
  hypothesis (e.g. `sqrt 0 = 0` for the flat-history statement).
* IEEE NaN (produced by pandas rolling windows on series shorter than
  the window, and by a standard deviation over fewer than two points)
  is modelled as `Option ℚ` with `none` playing NaN; the helper
  operations below propagate `none` exactly the way Python propagates
  NaN through `/`, `*`, the builtin `min`/`max` and `np.mean` (for the
  builtins, `max(NaN, c)` is NaN because the comparison `c > NaN` is
  `False`, and symmetrically for `min`).
* NumPy matrices of shape (days, paths) are modelled as functions
  `ℕ → ℕ → ℚ` (row `t` = day, column `j` = path); vectorised NumPy
  arithmetic becomes pointwise arithmetic on those functions.
* The NumPy global random generator is modelled by an abstract state
  type together with the three entry points the code uses
  (`np.random.seed`, `np.random.standard_t`, `np.random.rand`); drawing
  a (d, n) matrix consumes d*n values in row-major (C) order.
-/

/-! ## List helpers shared by the pipeline -/

/-- `np.mean` / `pandas.Series.mean` of a list (sum divided by length). -/
def mean (l : List ℚ) : ℚ := l.sum / (l.length : ℚ)

/-- `Series.pct_change().dropna()`: the day-over-day fractional changes of
consecutive elements.  The leading NaN produced by `pct_change` is the
element `dropna` removes, so the result pairs each element with its
successor. -/
def pct_change (prices : List ℚ) : List ℚ :=
  (prices.zip prices.tail).map (fun p => (p.2 - p.1) / p.1)

/-- `series.iloc[-w:]`: the last `w` elements.  Python's `-0` is `0`, so a
window of `0` selects the whole series; a window longer than the series
is clamped and also selects the whole series. -/
def iloc_last (w : ℕ) (xs : List ℚ) : List ℚ :=
  if w = 0 then xs else xs.drop (xs.length - w)

/-- The sample variance with `ddof = 1` (the pandas default for `std`):
`Σ (x - mean)² / (len - 1)`. -/
def sample_var (l : List ℚ) : ℚ :=
  (l.map (fun x => (x - mean l) ^ 2)).sum / ((l.length : ℚ) - 1)

/-- `pandas.Series.std()` (ddof = 1): NaN (`none`) on fewer than two
observations, otherwise the square root of the sample variance. -/
def series_std (sqrt : ℚ → ℚ) (l : List ℚ) : Option ℚ :=
  if l.length ≤ 1 then none else some (sqrt (sample_var l))

/-- `series.rolling(w).std().iloc[-1]`: NaN (`none`) when the series is
shorter than the window (pandas' default `min_periods` equals the
window), otherwise the ddof-1 standard deviation of the last `w`
values. -/
def rolling_std_last (sqrt : ℚ → ℚ) (w : ℕ) (l : List ℚ) : Option ℚ :=
  if l.length < w then none else some (sqrt (sample_var (l.drop (l.length - w))))

/-- Multiplication of a possibly-NaN float by a float (NaN absorbs). -/
def nmul (a : Option ℚ) (c : ℚ) : Option ℚ := a.map (fun x => x * c)

/-- Python's builtin `max(x, c)` on a possibly-NaN first argument: the
comparison `c > NaN` is `False`, so `max(NaN, c)` returns NaN. -/
def pymax (a : Option ℚ) (c : ℚ) : Option ℚ := a.map (fun x => max x c)

/-- Python's builtin `min(x, c)` on a possibly-NaN first argument: the
comparison `c < NaN` is `False`, so `min(NaN, c)` returns NaN. -/
def pymin (a : Option ℚ) (c : ℚ) : Option ℚ := a.map (fun x => min x c)

/-- Division of possibly-NaN floats (NaN absorbs; the sole use below is
guarded so that the denominator is never a plain zero). -/
def ndiv (a b : Option ℚ) : Option ℚ :=
  match a, b with
  | some x, some y => some (x / y)
  | _, _ => none

/-! ## `mc_percentiles.py` -/

/-- Ascending sort, as performed internally by `np.percentile`. -/
def sorted_returns (xs : List ℚ) : List ℚ :=
  List.insertionSort (fun a b => a ≤ b) xs

/-- `np.percentile(xs, q)` with the default linear interpolation: with
`s` the ascending sort of `xs` and `pos = q/100 * (len - 1)`, the result
is `s[⌊pos⌋] + (pos - ⌊pos⌋) * (s[⌊pos⌋ + 1] - s[⌊pos⌋])`, where the
upper neighbour falls back to the lower one at the right edge. -/
def npPercentile (xs : List ℚ) (q : ℚ) : ℚ :=
  let s := sorted_returns xs
  let pos : ℚ := q / 100 * ((xs.length : ℚ) - 1)
  let i : ℕ := (⌊pos⌋).toNat
  let lo := s.getD i 0
  let hi := s.getD (i + 1) lo
  lo + (pos - (i : ℚ)) * (hi - lo)

/-- The dictionary returned by `calculate_cvar` in `mc_percentiles.py`. -/
structure CvarResult where
  var_95 : ℚ
  cvar_95 : ℚ
  var_99 : ℚ
  cvar_99 : ℚ
deriving DecidableEq

/-- `calculate_cvar` (`mc_percentiles.py`, lines 22-35): VaR 95/99 are the
5th/1st percentiles of the returns, CVaR 95/99 the means of the returns
at or below the corresponding VaR (NumPy boolean-mask indexing keeps
order, i.e. it is `filter`). -/
def calculate_cvar (returns : List ℚ) : CvarResult :=
  let var_95 := npPercentile returns 5
  let var_99 := npPercentile returns 1
  { var_95 := var_95
    cvar_95 := mean (returns.filter (fun r => r ≤ var_95))
    var_99 := var_99
    cvar_99 := mean (returns.filter (fun r => r ≤ var_99)) }

/-- The target-price lookup of `run_analysis.py` (lines 97-98):
`(stock_final_prices <= target).sum() / len(stock_final_prices) * 100`. -/
def percentile_rank (stock_final_prices : List ℚ) (target : ℚ) : ℚ :=
  ((stock_final_prices.countP (fun p => p ≤ target) : ℚ) /
    (stock_final_prices.length : ℚ)) * 100

/-! ## The path simulator (`mc_simulation.py`) -/

/-- One scenario's ensemble of `run_single_simulation`: the
(days × paths) price matrix (as a function of day `t` and path `j`) and
the derived final-price and final-return vectors. -/
structure SimResult where
  paths : ℕ → ℕ → ℚ
  final_prices : ℕ → ℚ
  final_returns : ℕ → ℚ

/-- The EWMA volatility state of `run_single_simulation` (lines 40-48):
`sigma_t[0] = sigma` and
`sigma_t[t] = sqrt(λ·sigma_t[t-1]² + (1-λ)·(sigma_t[t-1]·z[t-1])²)`. -/
def sigma_t (sqrt : ℚ → ℚ) (sigma lam : ℚ) (z : ℕ → ℕ → ℚ) : ℕ → ℕ → ℚ
  | 0, _ => sigma
  | t + 1, j =>
      sqrt (lam * sigma_t sqrt sigma lam z t j ^ 2
        + (1 - lam) * (sigma_t sqrt sigma lam z t j * z t j) ^ 2)

/-- `run_single_simulation` (`mc_simulation.py`, lines 13-73).  The two
random matrices the source draws — `np.random.standard_t(df, (d, n))` at
the top, and `np.random.rand(d, n)` inside `if jump_prob > 0` — are the
arguments `rawZ` and `u`; everything downstream of the draws is
translated line by line: the shocks are rescaled by `sqrt(df/(df-2))`,
the EWMA state is `sigma_t`, the daily return is
`mu/252 + sigma_t/sqrt(252)·z` with `jump_magnitude` added on the days
with `u < jump_prob` (only when `jump_prob > 0`), and the price paths
are the cumulative product along the time axis. -/
def run_single_simulation (sqrt : ℚ → ℚ) (rawZ u : ℕ → ℕ → ℚ)
    (stock_price mu sigma : ℚ) (days_to_simulate num_simulations : ℕ)
    (jump_prob jump_magnitude df lam : ℚ) : SimResult :=
  let z : ℕ → ℕ → ℚ := fun t j => rawZ t j / sqrt (df / (df - 2))
  let st := sigma_t sqrt sigma lam z
  let daily_returns : ℕ → ℕ → ℚ := fun t j =>
    if 0 < jump_prob then
      (if u t j < jump_prob then
        mu / 252 + st t j / sqrt 252 * z t j + jump_magnitude
       else mu / 252 + st t j / sqrt 252 * z t j)
    else mu / 252 + st t j / sqrt 252 * z t j
  let paths : ℕ → ℕ → ℚ := fun t j =>
    stock_price * ∏ s ∈ Finset.range (t + 1), (1 + daily_returns s j)
  let final_prices : ℕ → ℚ := fun j => paths (days_to_simulate - 1) j
  { paths := paths
    final_prices := final_prices
    final_returns := fun j => (final_prices j / stock_price - 1) * 100 }

/-- The claim side of C1: the standardized Student-t shock matrix,
divided by `sqrt(df/(df-2))` so each shock has unit variance. -/
def spec_shock (sqrt : ℚ → ℚ) (df : ℚ) (rawZ : ℕ → ℕ → ℚ) : ℕ → ℕ → ℚ :=
  fun t j => rawZ t j / sqrt (df / (df - 2))

/-- The claim side of C1: the volatility state recursion
`sigma_t[0] = sigma`,
`sigma_t[t] = sqrt(λ·sigma_t[t-1]² + (1-λ)·(sigma_t[t-1]·z[t-1])²)`. -/
def spec_sigma (sqrt : ℚ → ℚ) (sigma lam : ℚ) (z : ℕ → ℕ → ℚ) : ℕ → ℕ → ℚ
  | 0, _ => sigma
  | t + 1, j =>
      sqrt (lam * spec_sigma sqrt sigma lam z t j ^ 2
        + (1 - lam) * (spec_sigma sqrt sigma lam z t j * z t j) ^ 2)

/-- The claim side of C1: each daily return equals
`mu/252 + sigma_t[t]/sqrt(252)·z[t]`, plus `jump_magnitude` added
exactly on the Bernoulli days (`u[t] < jump_prob`). -/
def spec_daily_return (sqrt : ℚ → ℚ) (mu sigma lam jump_prob jump_magnitude : ℚ)
    (z u : ℕ → ℕ → ℚ) (t j : ℕ) : ℚ :=
  mu / 252 + spec_sigma sqrt sigma lam z t j / sqrt 252 * z t j
    + (if u t j < jump_prob then jump_magnitude else 0)

/-- The claim side of C1: price path = starting price × cumulative
product of `(1 + daily return)` along the time axis. -/
def spec_price_path (stock_price : ℚ) (dr : ℕ → ℕ → ℚ) (t j : ℕ) : ℚ :=
  stock_price * ∏ s ∈ Finset.range (t + 1), (1 + dr s j)

/-! ## The global random generator and `run_monte_carlo` -/

/-- The slice of the NumPy global random generator the simulator uses:
an abstract state type `S`, `np.random.seed` (re-initialise from an
integer), `np.random.standard_t` (one raw Student-t draw, given the
degrees of freedom) and `np.random.rand` (one uniform draw). -/
structure NpRandom (S : Type) where
  seed : ℕ → S
  standard_t : ℚ → S → ℚ × S
  rand : S → ℚ × S

/-- Draw `k` consecutive values, threading the generator state. -/
def draw_list {S : Type} (draw : S → ℚ × S) : ℕ → S → List ℚ × S
  | 0, s => ([], s)
  | k + 1, s =>
      let p := draw s
      let rest := draw_list draw k p.2
      (p.1 :: rest.1, rest.2)

/-- View a row-major buffer of draws as a (days × paths) matrix with
`n` columns (NumPy's default C order). -/
def mat_of (l : List ℚ) (n : ℕ) : ℕ → ℕ → ℚ := fun t j => l.getD (t * n + j) 0

/-- `run_single_simulation` as a consumer of the global generator: it
draws its `standard_t(df, (d, n))` matrix first, then — only when
`jump_prob > 0` — its `rand(d, n)` matrix (the source draws the jump
uniforms inside `if jump_prob > 0`). -/
def run_single_simulation_np {S : Type} (np : NpRandom S) (sqrt : ℚ → ℚ)
    (stock_price mu sigma : ℚ) (d n : ℕ)
    (jump_prob jump_magnitude df lam : ℚ) (s : S) : SimResult × S :=
  let zdraw := draw_list (np.standard_t df) (d * n) s
  let udraw := if 0 < jump_prob then draw_list np.rand (d * n) zdraw.2
    else ([], zdraw.2)
  (run_single_simulation sqrt (mat_of zdraw.1 n) (mat_of udraw.1 n)
      stock_price mu sigma d n jump_prob jump_magnitude df lam,
    udraw.2)

/-- The statistics dictionary consumed by `run_monte_carlo` (only the
two keys it reads). -/
structure StatsDict where
  stock_volatility : ℚ
  stock_expected_return : ℚ

/-- The scenario-dictionary lookup `results[1.0]` of the source. -/
def dict_find (l : List (ℚ × SimResult)) (k : ℚ) : SimResult :=
  match l with
  | [] => ⟨fun _ _ => 0, fun _ => 0, fun _ => 0⟩
  | p :: rest => if p.1 = k then p.2 else dict_find rest k

/-- The result dictionary of `run_monte_carlo`: the base-case ensemble
at top level plus the per-multiplier stress results. -/
structure MCResult where
  stock_paths : ℕ → ℕ → ℚ
  stock_final_prices : ℕ → ℚ
  stock_final_returns : ℕ → ℚ
  stress_results : List (ℚ × SimResult)

/-- The volatility stress ladder of `run_monte_carlo` (line 87). -/
def vol_multipliers : List ℚ := [1, 5/4, 3/2]

/-- The body of `run_monte_carlo` after `np.random.seed(42)`: one
`run_single_simulation` per multiplier of the ladder, with
`sigma = base_sigma * multiplier` and the constants
`jump_prob=0.02`, `jump_magnitude=-0.04`, `df=5`, `lambda_=0.94`,
threading the generator state scenario after scenario; the top-level
ensemble is the base case `results[1.0]`. -/
def run_monte_carlo_seeded {S : Type} (np : NpRandom S) (sqrt : ℚ → ℚ)
    (stock_price : ℚ) (stats : StatsDict)
    (days_to_simulate num_simulations : ℕ) (s0 : S) : MCResult :=
  let mu := stats.stock_expected_return
  let base_sigma := stats.stock_volatility
  let step := fun (acc : List (ℚ × SimResult) × S) (multiplier : ℚ) =>
    let r := run_single_simulation_np np sqrt stock_price mu
      (base_sigma * multiplier) days_to_simulate num_simulations
      (1/50) (-(1/25)) 5 (94/100) acc.2
    (acc.1 ++ [(multiplier, r.1)], r.2)
  let results := (vol_multipliers.foldl step ([], s0)).1
  let base_case := dict_find results 1
  { stock_paths := base_case.paths
    stock_final_prices := base_case.final_prices
    stock_final_returns := base_case.final_returns
    stress_results := results }

/-- `run_monte_carlo` (`mc_simulation.py`, lines 76-131): it receives
the global generator in whatever state the caller left it (`s`), and
immediately re-seeds it with the hardcoded literal 42
(`np.random.seed(42)`) before generating the stress ladder. -/
def run_monte_carlo {S : Type} (np : NpRandom S) (sqrt : ℚ → ℚ)
    (stock_price : ℚ) (stats : StatsDict)
    (days_to_simulate num_simulations : ℕ) (s : S) : MCResult :=
  run_monte_carlo_seeded np sqrt stock_price stats days_to_simulate
    num_simulations (np.seed 42)

/-- A concrete generator instance (state = a counter; seeding sets the
counter, each draw advances it and returns a value depending on it),
used to exhibit that `run_monte_carlo` ignores the caller's seeding. -/
def np0 : NpRandom ℕ :=
  { seed := fun k => k
    standard_t := fun df s => (df + (s : ℚ), s + 1)
    rand := fun s => (1/2, s + 1) }

/-! ## `mc_stats.py` and the engine's statistics call -/

/-- The dictionary returned by `calculate_statistics` (`mc_stats.py`).
The volatility entry is NaN (`none`) when fewer than two trailing
returns are available. -/
structure StatsResult where
  stock_volatility : Option ℚ
  stock_expected_return : ℚ
deriving DecidableEq

/-- `calculate_statistics` (`mc_stats.py`, lines 5-23): takes the last
`historical_window` closes (`iloc[-w:]`, which silently clamps to the
available history), their `pct_change`, annualizes the ddof-1 standard
deviation by `sqrt(252)`, and uses the supplied `risk_free_rate`
(default 0.04 in the source) directly as the drift:
`stock_expected_return = risk_free_rate`. -/
def calculate_statistics (sqrt : ℚ → ℚ) (close : List ℚ)
    (historical_window : ℕ) (risk_free_rate : ℚ) : StatsResult :=
  let stock_prices := iloc_last historical_window close
  let stock_returns := pct_change stock_prices
  { stock_volatility := nmul (series_std sqrt stock_returns) (sqrt 252)
    stock_expected_return := risk_free_rate }

/-- The statistics call made by `MonteCarloRiskEngine.__init__`
(`monte_carlo_risk_engine.py`, lines 28-36): the engine's interface has
no drift-mode flag and passes the hardcoded `risk_free_rate=0.042`. -/
def engine_calculate_statistics (sqrt : ℚ → ℚ) (close : List ℚ)
    (historical_window : ℕ) : StatsResult :=
  calculate_statistics sqrt close historical_window (42/1000)

/-- The claim side of C7 ("historical mode"): the annualized sample mean
of the trailing daily returns, `mean(returns) × 252`. -/
def spec_historical_drift (close : List ℚ) (historical_window : ℕ) : ℚ :=
  mean (pct_change (iloc_last historical_window close)) * 252

/-! ## `mc_risk_state.py` -/

/-- The volatility-regime sub-score:
`min(max((vol_ratio - 0.7) / (1.5 - 0.7), 0), 1)`, applied with Python
`min`/`max` semantics to a possibly-NaN ratio. -/
def vol_score (vol_ratio : Option ℚ) : Option ℚ :=
  pymin (pymax (vol_ratio.map (fun r => (r - 7/10) / (15/10 - 7/10))) 0) 1

/-- The tail-thickness sub-score:
`min(max((tail_ratio - 1.1) / (1.6 - 1.1), 0), 1)`. -/
def tail_score (tail_ratio : ℚ) : ℚ :=
  min (max ((tail_ratio - 11/10) / (16/10 - 11/10)) 0) 1

/-- The jump-intensity sub-score: `min(jump_freq / 0.03, 1)` (note: no
explicit lower clamp in the source; the frequency is a count divided by
a length, hence non-negative). -/
def jump_score (jump_freq : ℚ) : ℚ :=
  min (jump_freq / (3/100)) 1

/-- The distribution-width sub-score:
`min(max((width - 10) / (60 - 10), 0), 1)`. -/
def width_score (width : ℚ) : ℚ :=
  min (max ((width - 10) / (60 - 10)) 0) 1

/-- The dictionary returned by `calculate_risk_state_score`; the field
`vol_r` models the `vol_ratio` entry and `tail_r` the `tail_ratio`
entry of the source's dictionary (named so here for lexical reasons
only). -/
structure RiskState where
  vol_r : Option ℚ
  tail_r : ℚ
  jump_freq : ℚ
  distribution_width : ℚ
  risk_state_score : Option ℚ
deriving DecidableEq

/-- `calculate_risk_state_score` (`mc_risk_state.py`, lines 3-82):
20-day over 100-day rolling annualized volatility ratio (with the
`vol_100 != 0` guard — note NaN `!= 0` is `True` in Python, so a NaN
`vol_100` flows into the division and poisons the ratio), |CVaR99|/|VaR99|
tail ratio (guarded on `var_99 != 0`), frequency of daily returns below
−3 %, spread between the 95th and 5th percentile of the simulated final
returns, and the composite `np.mean` of the four sub-scores × 100. -/
def calculate_risk_state_score (sqrt : ℚ → ℚ) (close : List ℚ)
    (final_returns : List ℚ) (var_99 cvar_99 : ℚ) : RiskState :=
  let returns := pct_change close
  let vol_20 := nmul (rolling_std_last sqrt 20 returns) (sqrt 252)
  let vol_100 := nmul (rolling_std_last sqrt 100 returns) (sqrt 252)
  let vol_ratio : Option ℚ :=
    if vol_100 = some 0 then some 1 else ndiv vol_20 vol_100
  let v99 := |var_99|
  let c99 := |cvar_99|
  let tail_ratio : ℚ := if v99 = 0 then 1 else c99 / v99
  let jump_days := returns.countP (fun r => r < -(3/100))
  let jump_freq : ℚ := (jump_days : ℚ) / (returns.length : ℚ)
  let p95 := npPercentile final_returns 95
  let p5 := npPercentile final_returns 5
  let width := |p95 - p5|
  let composite := (vol_score vol_ratio).map
    (fun v => (v + tail_score tail_ratio + jump_score jump_freq
      + width_score width) / 4)
  { vol_r := vol_ratio
    tail_r := tail_ratio
    jump_freq := jump_freq
    distribution_width := width
    risk_state_score := composite.map (fun c => c * 100) }

/-! ## Helper lemmas about sorting, `getD`, percentiles and means -/

theorem getD_of_lt (l : List ℚ) (d : ℚ) (n : ℕ) (h : n < l.length) :
    l.getD n d = l.get ⟨n, h⟩ := by
  simp [List.getD_eq_getElem?_getD, List.getElem?_eq_getElem h]

theorem getD_of_ge (l : List ℚ) (d : ℚ) (n : ℕ) (h : l.length ≤ n) :
    l.getD n d = d := by
  simp [List.getD_eq_getElem?_getD, List.getElem?_eq_none h]

theorem sorted_returns_sorted (xs : List ℚ) :
    List.Sorted (fun a b => a ≤ b) (sorted_returns xs) :=
  List.sorted_insertionSort _ xs

theorem sorted_returns_length (xs : List ℚ) :
    (sorted_returns xs).length = xs.length :=
  (List.perm_insertionSort _ xs).length_eq

theorem mem_sorted_returns (xs : List ℚ) (a : ℚ) :
    a ∈ sorted_returns xs ↔ a ∈ xs :=
  (List.perm_insertionSort _ xs).mem_iff

/-- The interpolation position `q/100 * (len-1)` used by `np.percentile`
lies in `[0, len-1]` for a percentile `q ∈ [0, 100]` and a non-empty
input. -/
theorem percentile_pos_bounds (xs : List ℚ) (q : ℚ) (hne : xs ≠ [])
    (hq0 : 0 ≤ q) (hq1 : q ≤ 100) :
    0 ≤ q / 100 * ((xs.length : ℚ) - 1) ∧
      q / 100 * ((xs.length : ℚ) - 1) ≤ (xs.length : ℚ) - 1 := by
  have hn : 1 ≤ xs.length := List.length_pos.2 hne
  have hn1 : (1 : ℚ) ≤ (xs.length : ℚ) := by exact_mod_cast hn
  have hsub : (0 : ℚ) ≤ (xs.length : ℚ) - 1 := by linarith
  have hdiv0 : (0 : ℚ) ≤ q / 100 := div_nonneg hq0 (by norm_num)
  have hdiv1 : q / 100 ≤ 1 := (div_le_one (by norm_num)).2 hq1
  refine ⟨mul_nonneg hdiv0 hsub, ?_⟩
  calc q / 100 * ((xs.length : ℚ) - 1)
      ≤ 1 * ((xs.length : ℚ) - 1) := mul_le_mul_of_nonneg_right hdiv1 hsub
    _ = (xs.length : ℚ) - 1 := one_mul _

/-- Every value `np.percentile` can interpolate to is at least the head of
the sorted input: the floor index is a valid index, the fractional part
is non-negative and the upper interpolation neighbour is at least the
lower one. -/
theorem head_le_npPercentile (xs : List ℚ) (q : ℚ) (hne : xs ≠ [])
    (hq0 : 0 ≤ q) (hq1 : q ≤ 100) :
    (sorted_returns xs).getD 0 0 ≤ npPercentile xs q := by
  obtain ⟨hpos0, hposle⟩ := percentile_pos_bounds xs q hne hq0 hq1
  set pos : ℚ := q / 100 * ((xs.length : ℚ) - 1) with hposdef
  have hn : 1 ≤ xs.length := List.length_pos.2 hne
  have hfloor0 : 0 ≤ ⌊pos⌋ := Int.floor_nonneg.2 hpos0
  have hcast : ((⌊pos⌋.toNat : ℕ) : ℚ) = ((⌊pos⌋ : ℤ) : ℚ) := by
    exact_mod_cast congrArg (fun z : ℤ => (z : ℚ)) (Int.toNat_of_nonneg hfloor0)
  have hγ : 0 ≤ pos - ((⌊pos⌋.toNat : ℕ) : ℚ) := by
    rw [hcast]; linarith [Int.floor_le pos]
  have hfloor_le : ⌊pos⌋ ≤ (xs.length : ℤ) - 1 := by
    have h1 : ((xs.length : ℚ) - 1) = (((xs.length : ℤ) - 1 : ℤ) : ℚ) := by
      push_cast; ring
    have h2 : ⌊pos⌋ ≤ ⌊((xs.length : ℚ) - 1)⌋ := Int.floor_le_floor hposle
    rwa [h1, Int.floor_intCast] at h2
  have hi_lt : ⌊pos⌋.toNat < xs.length := by omega
  have hi_s : ⌊pos⌋.toNat < (sorted_returns xs).length := by
    rwa [sorted_returns_length]
  have h0_s : 0 < (sorted_returns xs).length := by
    rw [sorted_returns_length]; omega
  have hlo : (sorted_returns xs).getD ⌊pos⌋.toNat 0
      = (sorted_returns xs).get ⟨⌊pos⌋.toNat, hi_s⟩ := getD_of_lt _ _ _ hi_s
  have hhead : (sorted_returns xs).getD 0 0
      = (sorted_returns xs).get ⟨0, h0_s⟩ := getD_of_lt _ _ _ h0_s
  have hhead_lo : (sorted_returns xs).get ⟨0, h0_s⟩
      ≤ (sorted_returns xs).get ⟨⌊pos⌋.toNat, hi_s⟩ :=
    (sorted_returns_sorted xs).rel_get_of_le (by simp)
  have hlo_hi : (sorted_returns xs).getD ⌊pos⌋.toNat 0
      ≤ (sorted_returns xs).getD (⌊pos⌋.toNat + 1)
          ((sorted_returns xs).getD ⌊pos⌋.toNat 0) := by
    by_cases hcase : ⌊pos⌋.toNat + 1 < (sorted_returns xs).length
    · rw [getD_of_lt _ _ _ hcase, hlo]
      exact (sorted_returns_sorted xs).rel_get_of_le (by simp)
    · rw [getD_of_ge (sorted_returns xs)
        ((sorted_returns xs).getD ⌊pos⌋.toNat 0) (⌊pos⌋.toNat + 1) (by omega)]
  show (sorted_returns xs).getD 0 0
      ≤ (sorted_returns xs).getD ⌊pos⌋.toNat 0
        + (pos - ((⌊pos⌋.toNat : ℕ) : ℚ))
          * ((sorted_returns xs).getD (⌊pos⌋.toNat + 1)
              ((sorted_returns xs).getD ⌊pos⌋.toNat 0)
            - (sorted_returns xs).getD ⌊pos⌋.toNat 0)
  have hγp := mul_nonneg hγ (sub_nonneg.2 hlo_hi)
  have h2 : (sorted_returns xs).getD 0 0
      ≤ (sorted_returns xs).getD ⌊pos⌋.toNat 0 := by
    rw [hhead, hlo]; exact hhead_lo
  linarith

/-- On an input whose entries are all equal to `c`, `np.percentile`
returns `c` (both interpolation neighbours are `c`). -/
theorem npPercentile_const (xs : List ℚ) (q c : ℚ) (hne : xs ≠ [])
    (hall : ∀ y ∈ xs, y = c) (hq0 : 0 ≤ q) (hq1 : q ≤ 100) :
    npPercentile xs q = c := by
  obtain ⟨hpos0, hposle⟩ := percentile_pos_bounds xs q hne hq0 hq1
  set pos : ℚ := q / 100 * ((xs.length : ℚ) - 1) with hposdef
  have hn : 1 ≤ xs.length := List.length_pos.2 hne
  have hfloor_le : ⌊pos⌋ ≤ (xs.length : ℤ) - 1 := by
    have h1 : ((xs.length : ℚ) - 1) = (((xs.length : ℤ) - 1 : ℤ) : ℚ) := by
      push_cast; ring
    have h2 : ⌊pos⌋ ≤ ⌊((xs.length : ℚ) - 1)⌋ := Int.floor_le_floor hposle
    rwa [h1, Int.floor_intCast] at h2
  have hi_s : ⌊pos⌋.toNat < (sorted_returns xs).length := by
    rw [sorted_returns_length]; omega
  have halls : ∀ y ∈ sorted_returns xs, y = c := by
    intro y hy; exact hall y ((mem_sorted_returns xs y).1 hy)
  have hlo : (sorted_returns xs).getD ⌊pos⌋.toNat 0 = c := by
    rw [getD_of_lt _ _ _ hi_s]
    exact halls _ (List.get_mem _ _ _)
  have hhi : (sorted_returns xs).getD (⌊pos⌋.toNat + 1)
      ((sorted_returns xs).getD ⌊pos⌋.toNat 0) = c := by
    by_cases hcase : ⌊pos⌋.toNat + 1 < (sorted_returns xs).length
    · rw [getD_of_lt _ _ _ hcase]
      exact halls _ (List.get_mem _ _ _)
    · rw [getD_of_ge (sorted_returns xs)
        ((sorted_returns xs).getD ⌊pos⌋.toNat 0) (⌊pos⌋.toNat + 1) (by omega), hlo]
  show (sorted_returns xs).getD ⌊pos⌋.toNat 0
      + (pos - ((⌊pos⌋.toNat : ℕ) : ℚ))
        * ((sorted_returns xs).getD (⌊pos⌋.toNat + 1)
            ((sorted_returns xs).getD ⌊pos⌋.toNat 0)
          - (sorted_returns xs).getD ⌊pos⌋.toNat 0) = c
  rw [hhi, hlo]; ring

/-- The head of the sorted list is a member of the original list and a
lower bound for it. -/
theorem sorted_head_spec (xs : List ℚ) (hne : xs ≠ []) :
    (sorted_returns xs).getD 0 0 ∈ xs ∧
      ∀ y ∈ xs, (sorted_returns xs).getD 0 0 ≤ y := by
  have h0_s : 0 < (sorted_returns xs).length := by
    rw [sorted_returns_length]; exact List.length_pos.2 hne
  obtain ⟨a, t, hcons⟩ : ∃ a t, sorted_returns xs = a :: t := by
    cases hsr : sorted_returns xs with
    | nil => rw [hsr] at h0_s; simp at h0_s
    | cons a t => exact ⟨a, t, rfl⟩
  have hsorted := sorted_returns_sorted xs
  rw [hcons] at hsorted
  have hgd : (sorted_returns xs).getD 0 0 = a := by rw [hcons]; rfl
  constructor
  · rw [hgd]
    exact (mem_sorted_returns xs a).1 (by rw [hcons]; exact List.mem_cons_self a t)
  · intro y hy
    rw [hgd]
    have hys : y ∈ a :: t := by
      rw [← hcons]; exact (mem_sorted_returns xs y).2 hy
    rcases List.mem_cons.1 hys with h | h
    · exact le_of_eq h.symm
    · exact List.rel_of_sorted_cons hsorted y h

/-- A mean over a non-empty list of values all at most `c` is at most `c`. -/
theorem mean_le_of_forall_le (l : List ℚ) (c : ℚ) (hne : l ≠ [])
    (h : ∀ x ∈ l, x ≤ c) : mean l ≤ c := by
  have hlen : 0 < l.length := List.length_pos.2 hne
  have hlenq : (0 : ℚ) < (l.length : ℚ) := by exact_mod_cast hlen
  have hsum : l.sum ≤ l.length • c := List.sum_le_card_nsmul l c h
  rw [nsmul_eq_mul] at hsum
  rw [mean, div_le_iff₀ hlenq]
  linarith

/-- A mean over a non-empty constant list is that constant. -/
theorem mean_of_forall_eq (l : List ℚ) (c : ℚ) (hne : l ≠ [])
    (h : ∀ x ∈ l, x = c) : mean l = c := by
  have hlen : 0 < l.length := List.length_pos.2 hne
  have hlenq : ((l.length : ℚ)) ≠ 0 := by
    exact_mod_cast Nat.pos_iff_ne_zero.1 hlen
  have hrep : l = List.replicate l.length c := List.eq_replicate_length.2 h
  have hsum : l.sum = (l.length : ℚ) * c := by
    conv_lhs => rw [hrep]
    rw [List.sum_replicate, nsmul_eq_mul]
  rw [mean, hsum, mul_comm, mul_div_assoc, div_self hlenq, mul_one]

theorem sigma_t_zero (sqrt : ℚ → ℚ) (sigma lam : ℚ) (z : ℕ → ℕ → ℚ) (j : ℕ) :
    sigma_t sqrt sigma lam z 0 j = sigma := rfl

theorem sigma_t_eq_spec_sigma (sqrt : ℚ → ℚ) (sigma lam : ℚ)
    (z : ℕ → ℕ → ℚ) (t j : ℕ) :
    sigma_t sqrt sigma lam z t j = spec_sigma sqrt sigma lam z t j := by
  induction t with
  | zero => rfl
  | succ t ih => simp only [sigma_t, spec_sigma, ih]

/-- The guarded ratio `x/y if y != 0 else 1.0` is an actual (non-NaN)
number as soon as both operands are actual numbers. -/
theorem vol_ratio_some (a b : Option ℚ) (ha : ∃ x, a = some x)
    (hb : ∃ y, b = some y) :
    ∃ r, (if b = some 0 then some 1 else ndiv a b) = some r := by
  obtain ⟨x, rfl⟩ := ha
  obtain ⟨y, rfl⟩ := hb
  by_cases h : (some y : Option ℚ) = some 0
  · exact ⟨1, if_pos h⟩
  · exact ⟨x / y, by rw [if_neg h]; rfl⟩

/-- A clamped linear map `min(max(x, 0), 1)` lands in `[0, 1]`. -/
theorem clamp01_bounds (x : ℚ) :
    0 ≤ min (max x 0) 1 ∧ min (max x 0) 1 ≤ 1 :=
  ⟨le_min (le_max_right x 0) zero_le_one, min_le_right _ _⟩

/-- The source's conditional jump overlay (`daily_returns[jump_matrix] +=
jump_magnitude` guarded by `if jump_prob > 0`) agrees with the spec's
unconditional "add the magnitude exactly on the Bernoulli days", because
a uniform draw is non-negative and so can never fall below a
non-positive jump probability. -/
theorem jump_branch_eq (base jm jp uv : ℚ) (huv : 0 ≤ uv) :
    (if 0 < jp then (if uv < jp then base + jm else base) else base)
      = base + (if uv < jp then jm else 0) := by
  by_cases hjp : 0 < jp
  · by_cases huj : uv < jp
    · simp [hjp, huj]
    · simp [hjp, huj]
  · have huj : ¬uv < jp := fun hlt => hjp (lt_of_le_of_lt huv hlt)
    simp [hjp, huj]

/-! ## The claims -/

/-- C4: for every non-empty final-return vector, `calculate_cvar` returns
`var_95`/`var_99` equal to the 5th/1st empirical percentile of the
returns, `cvar` at each confidence equal to the mean of all returns at
or below the corresponding VaR threshold, and these satisfy
`cvar_95 ≤ var_95` and `cvar_99 ≤ var_99`. -/
theorem C4_calculate_cvar_spec (xs : List ℚ) (hne : xs ≠ []) :
    (calculate_cvar xs).var_95 = npPercentile xs 5 ∧
    (calculate_cvar xs).var_99 = npPercentile xs 1 ∧
    (calculate_cvar xs).cvar_95
      = mean (xs.filter (fun r => r ≤ npPercentile xs 5)) ∧
    (calculate_cvar xs).cvar_99
      = mean (xs.filter (fun r => r ≤ npPercentile xs 1)) ∧
    (calculate_cvar xs).cvar_95 ≤ (calculate_cvar xs).var_95 ∧
    (calculate_cvar xs).cvar_99 ≤ (calculate_cvar xs).var_99 := by
  obtain ⟨hmem, _hmin⟩ := sorted_head_spec xs hne
  have key : ∀ q : ℚ, 0 ≤ q → q ≤ 100 →
      mean (xs.filter (fun r => r ≤ npPercentile xs q)) ≤ npPercentile xs q := by
    intro q hq0 hq1
    have hhead := head_le_npPercentile xs q hne hq0 hq1
    have hfmem : (sorted_returns xs).getD 0 0
        ∈ xs.filter (fun r => r ≤ npPercentile xs q) :=
      List.mem_filter.2 ⟨hmem, by simpa using hhead⟩
    have hfne : xs.filter (fun r => r ≤ npPercentile xs q) ≠ [] :=
      List.ne_nil_of_mem hfmem
    refine mean_le_of_forall_le _ _ hfne ?_
    intro x hx
    simpa using (List.mem_filter.1 hx).2
  exact ⟨rfl, rfl, rfl, rfl, key 5 (by norm_num) (by norm_num),
    key 1 (by norm_num) (by norm_num)⟩

/-- Witness for C4 at the concrete return vector `[3, 1, 2]`. -/
theorem C4_calculate_cvar_spec_witness :
    ((3 : ℚ) :: [1, 2] ≠ []) ∧
    (calculate_cvar [3, 1, 2]).cvar_95 ≤ (calculate_cvar [3, 1, 2]).var_95 ∧
    (calculate_cvar [3, 1, 2]).cvar_99 ≤ (calculate_cvar [3, 1, 2]).var_99 := by
  have h : ((3 : ℚ) :: [1, 2] : List ℚ) ≠ [] := by decide
  exact ⟨h, (C4_calculate_cvar_spec [3, 1, 2] h).2.2.2.2.1,
    (C4_calculate_cvar_spec [3, 1, 2] h).2.2.2.2.2⟩

/-- C10: for every non-empty return vector the conditioning sets used by
`calculate_cvar` are non-empty (the minimum return is at or below both
VaR thresholds), so both CVaR figures are well-defined means; and when
all returns are equal, CVaR equals VaR at both confidences. -/
theorem C10_cvar_conditioning_nonempty (xs : List ℚ) (hne : xs ≠ []) :
    0 < (xs.filter (fun r => r ≤ (calculate_cvar xs).var_95)).length ∧
    0 < (xs.filter (fun r => r ≤ (calculate_cvar xs).var_99)).length ∧
    (∃ m ∈ xs, (∀ y ∈ xs, m ≤ y) ∧
      m ≤ (calculate_cvar xs).var_95 ∧ m ≤ (calculate_cvar xs).var_99) ∧
    ∀ c : ℚ, (∀ x ∈ xs, x = c) →
      (calculate_cvar xs).cvar_95 = (calculate_cvar xs).var_95 ∧
      (calculate_cvar xs).cvar_99 = (calculate_cvar xs).var_99 := by
  have e95 : (calculate_cvar xs).var_95 = npPercentile xs 5 := rfl
  have e99 : (calculate_cvar xs).var_99 = npPercentile xs 1 := rfl
  have e95c : (calculate_cvar xs).cvar_95
      = mean (xs.filter (fun r => r ≤ npPercentile xs 5)) := rfl
  have e99c : (calculate_cvar xs).cvar_99
      = mean (xs.filter (fun r => r ≤ npPercentile xs 1)) := rfl
  rw [e95, e99, e95c, e99c]
  obtain ⟨hmem, hmin⟩ := sorted_head_spec xs hne
  have h5 := head_le_npPercentile xs 5 hne (by norm_num) (by norm_num)
  have h1 := head_le_npPercentile xs 1 hne (by norm_num) (by norm_num)
  have hf5 : (sorted_returns xs).getD 0 0
      ∈ xs.filter (fun r => r ≤ npPercentile xs 5) :=
    List.mem_filter.2 ⟨hmem, by simpa using h5⟩
  have hf1 : (sorted_returns xs).getD 0 0
      ∈ xs.filter (fun r => r ≤ npPercentile xs 1) :=
    List.mem_filter.2 ⟨hmem, by simpa using h1⟩
  refine ⟨List.length_pos.2 (List.ne_nil_of_mem hf5),
    List.length_pos.2 (List.ne_nil_of_mem hf1),
    ⟨(sorted_returns xs).getD 0 0, hmem, hmin, h5, h1⟩, ?_⟩
  intro c hc
  have hp5 : npPercentile xs 5 = c :=
    npPercentile_const xs 5 c hne hc (by norm_num) (by norm_num)
  have hp1 : npPercentile xs 1 = c :=
    npPercentile_const xs 1 c hne hc (by norm_num) (by norm_num)
  rw [hp5, hp1]
  have hfeq : xs.filter (fun r => r ≤ c) = xs := by
    refine List.filter_eq_self.2 ?_
    intro a ha
    simp [hc a ha]
  rw [hfeq]
  exact ⟨mean_of_forall_eq xs c hne hc, mean_of_forall_eq xs c hne hc⟩

/-- Witness for C10 at the degenerate vector `[5, 5]`. -/
theorem C10_cvar_conditioning_nonempty_witness :
    ((5 : ℚ) :: [5] ≠ []) ∧
    0 < ([5, 5].filter (fun r => r ≤ (calculate_cvar [5, 5]).var_95)).length ∧
    0 < ([5, 5].filter (fun r => r ≤ (calculate_cvar [5, 5]).var_99)).length ∧
    (calculate_cvar [5, 5]).cvar_95 = (calculate_cvar [5, 5]).var_95 ∧
    (calculate_cvar [5, 5]).cvar_99 = (calculate_cvar [5, 5]).var_99 := by
  have h : ((5 : ℚ) :: [5] : List ℚ) ≠ [] := by decide
  have hc : ∀ x ∈ ([5, 5] : List ℚ), x = 5 := by decide
  exact ⟨h, (C10_cvar_conditioning_nonempty [5, 5] h).1,
    (C10_cvar_conditioning_nonempty [5, 5] h).2.1,
    ((C10_cvar_conditioning_nonempty [5, 5] h).2.2.2 5 hc).1,
    ((C10_cvar_conditioning_nonempty [5, 5] h).2.2.2 5 hc).2⟩

/-- C9: the target-price lookup is a pure query over a final-price
vector: the rank equals 100 times the fraction of simulated final
prices at or below the target, and on the toy vector
`[90, 95, 100, 105, 110]` with target `95` it equals exactly `40`. -/
theorem C9_percentile_rank_spec (ps : List ℚ) (target : ℚ) (hne : ps ≠ []) :
    percentile_rank ps target
      = 100 * ((ps.countP (fun p => p ≤ target) : ℚ) / (ps.length : ℚ)) ∧
    percentile_rank [90, 95, 100, 105, 110] 95 = 40 := by
  constructor
  · rw [percentile_rank]; ring
  · norm_num [percentile_rank, List.countP_cons, List.countP_nil]

/-- Witness for C9 at the toy ensemble from the spec. -/
theorem C9_percentile_rank_spec_witness :
    ((90 : ℚ) :: [95, 100, 105, 110] ≠ []) ∧
    percentile_rank [90, 95, 100, 105, 110] 95
      = 100 * ((([90, 95, 100, 105, 110] : List ℚ).countP (fun p => p ≤ 95) : ℚ)
          / (([90, 95, 100, 105, 110] : List ℚ).length : ℚ)) ∧
    percentile_rank [90, 95, 100, 105, 110] 95 = 40 := by
  have h : ((90 : ℚ) :: [95, 100, 105, 110] : List ℚ) ≠ [] := by decide
  exact ⟨h, C9_percentile_rank_spec [90, 95, 100, 105, 110] 95 h⟩

/-- C1: for every configuration, `run_single_simulation` computes exactly
the spec's per-day algorithm: the Student-t shock matrix is divided by
`sqrt(df/(df-2))`; the volatility state satisfies `sigma_t[0] = sigma`
and the EWMA recursion; each daily return is
`mu/252 + sigma_t[t]/sqrt(252)·z[t]` plus `jump_magnitude` exactly on
the Bernoulli days; the price paths are the starting price times the
cumulative product of `(1 + daily return)` along the time axis; and the
final return is `(final price / starting price - 1) * 100`. -/
theorem C1_run_single_simulation_spec (sqrt : ℚ → ℚ) (rawZ u : ℕ → ℕ → ℚ)
    (stock_price mu sigma : ℚ) (days_to_simulate num_simulations : ℕ)
    (jump_prob jump_magnitude df lam : ℚ)
    (hd : 1 ≤ days_to_simulate) (hn : 1 ≤ num_simulations)
    (hdf : 2 < df) (hlam0 : 0 < lam) (hlam1 : lam < 1)
    (hu : ∀ t j, 0 ≤ u t j) :
    (run_single_simulation sqrt rawZ u stock_price mu sigma days_to_simulate
        num_simulations jump_prob jump_magnitude df lam).paths
      = spec_price_path stock_price
          (spec_daily_return sqrt mu sigma lam jump_prob jump_magnitude
            (spec_shock sqrt df rawZ) u) ∧
    (run_single_simulation sqrt rawZ u stock_price mu sigma days_to_simulate
        num_simulations jump_prob jump_magnitude df lam).final_prices
      = (fun j => spec_price_path stock_price
          (spec_daily_return sqrt mu sigma lam jump_prob jump_magnitude
            (spec_shock sqrt df rawZ) u) (days_to_simulate - 1) j) ∧
    (run_single_simulation sqrt rawZ u stock_price mu sigma days_to_simulate
        num_simulations jump_prob jump_magnitude df lam).final_returns
      = (fun j => (spec_price_path stock_price
          (spec_daily_return sqrt mu sigma lam jump_prob jump_magnitude
            (spec_shock sqrt df rawZ) u) (days_to_simulate - 1) j
            / stock_price - 1) * 100) := by
  have hp : (run_single_simulation sqrt rawZ u stock_price mu sigma
      days_to_simulate num_simulations jump_prob jump_magnitude df lam).paths
      = spec_price_path stock_price
          (spec_daily_return sqrt mu sigma lam jump_prob jump_magnitude
            (spec_shock sqrt df rawZ) u) := by
    funext t j
    simp only [run_single_simulation, spec_price_path]
    congr 1
    refine Finset.prod_congr rfl ?_
    intro s _
    congr 1
    rw [jump_branch_eq _ _ _ _ (hu s j)]
    simp only [spec_daily_return, spec_shock]
    rw [sigma_t_eq_spec_sigma]
    rfl
  have hfp : (run_single_simulation sqrt rawZ u stock_price mu sigma
      days_to_simulate num_simulations jump_prob jump_magnitude df lam).final_prices
      = fun j => (run_single_simulation sqrt rawZ u stock_price mu sigma
          days_to_simulate num_simulations jump_prob jump_magnitude df lam).paths
            (days_to_simulate - 1) j := rfl
  have hfr : (run_single_simulation sqrt rawZ u stock_price mu sigma
      days_to_simulate num_simulations jump_prob jump_magnitude df lam).final_returns
      = fun j => ((run_single_simulation sqrt rawZ u stock_price mu sigma
          days_to_simulate num_simulations jump_prob jump_magnitude df lam).paths
            (days_to_simulate - 1) j / stock_price - 1) * 100 := rfl
  refine ⟨hp, ?_, ?_⟩
  · rw [hfp, hp]
  · rw [hfr, hp]

/-- Witness for C1 at a concrete configuration (2 days, 1 path,
`df = 5`, `λ = 0.94`, 2 % jump probability, −4 % jump magnitude). -/
theorem C1_run_single_simulation_spec_witness :
    (run_single_simulation id (fun _ _ => 1) (fun _ _ => 1/2) 100 (1/25) (1/5)
        2 1 (1/50) (-(1/25)) 5 (94/100)).paths
      = spec_price_path 100
          (spec_daily_return id (1/25) (1/5) (94/100) (1/50) (-(1/25))
            (spec_shock id 5 (fun _ _ => 1)) (fun _ _ => 1/2)) :=
  (C1_run_single_simulation_spec id (fun _ _ => 1) (fun _ _ => 1/2) 100 (1/25)
    (1/5) 2 1 (1/50) (-(1/25)) 5 (94/100) (by norm_num) (by norm_num)
    (by norm_num) (by norm_num) (by norm_num) (fun t j => by norm_num)).1

/-- C2: for a fixed configuration (price, statistics dictionary, horizon,
path count), two independent invocations of `run_monte_carlo` — i.e.
calls from arbitrary, possibly different, prior states of the global
generator — produce identical results for every stress scenario: the
function re-seeds the generator before drawing anything. -/
theorem C2_run_monte_carlo_deterministic {S : Type} (np : NpRandom S)
    (sqrt : ℚ → ℚ) (stock_price : ℚ) (stats : StatsDict)
    (days_to_simulate num_simulations : ℕ) (s1 s2 : S) :
    run_monte_carlo np sqrt stock_price stats days_to_simulate num_simulations s1
      = run_monte_carlo np sqrt stock_price stats days_to_simulate
          num_simulations s2 := rfl

/-- Counterexample to C3 as stated: the ensemble generation is *not*
seeded from a caller-supplied seed.  With the concrete counter
generator `np0`, a caller seeding the global state with 7 and one
seeding it with 99 obtain identical results (first conjunct), even
though the two seeded streams genuinely produce different ensembles
when fed to the post-seeding body directly (second conjunct): the
caller's seed is discarded by the hardcoded `np.random.seed(42)`. -/
theorem C3_seed_counterexample :
    run_monte_carlo np0 id 100 ⟨1/5, 1/25⟩ 1 1 (np0.seed 7)
      = run_monte_carlo np0 id 100 ⟨1/5, 1/25⟩ 1 1 (np0.seed 99) ∧
    (run_monte_carlo_seeded np0 id 100 ⟨1/5, 1/25⟩ 1 1
        (np0.seed 7)).stock_final_prices 0
      ≠ (run_monte_carlo_seeded np0 id 100 ⟨1/5, 1/25⟩ 1 1
          (np0.seed 99)).stock_final_prices 0 := by
  constructor
  · rfl
  · simp only [run_monte_carlo_seeded, run_single_simulation_np,
      run_single_simulation, np0, draw_list, mat_of, dict_find,
      vol_multipliers, List.foldl_cons, List.foldl_nil, List.nil_append,
      List.cons_append, sigma_t_zero, Finset.prod_range_one, List.getD]
    norm_num [sigma_t_zero]

/-- C3 amended: the ensemble generation is seeded from the single
hardcoded literal 42 inside `run_monte_carlo` itself: whatever state
the caller left the global generator in, the run behaves exactly as the
post-seeding body started from `seed 42`, so re-running with the same
configuration reproduces identical paths — but no caller-supplied seed
is consumed. -/
theorem C3_seed_hardcoded {S : Type} (np : NpRandom S) (sqrt : ℚ → ℚ)
    (stock_price : ℚ) (stats : StatsDict)
    (days_to_simulate num_simulations : ℕ) (s : S) :
    run_monte_carlo np sqrt stock_price stats days_to_simulate num_simulations s
      = run_monte_carlo_seeded np sqrt stock_price stats days_to_simulate
          num_simulations (np.seed 42) := rfl

/-- C6: `run_monte_carlo` runs the simulation once per multiplier of the
ladder [1.0, 1.25, 1.5], scaling the base volatility by the multiplier
while every scenario shares the jump parameters (0.02, −0.04), the
degrees of freedom 5 and the decay 0.94; the scenarios consume the
seeded generator stream one after the other; and the top-level
`stock_paths` / `stock_final_prices` / `stock_final_returns` equal the
1.0-multiplier scenario's ensemble (the designated base case,
`results[1.0]`). -/
theorem C6_run_monte_carlo_ladder {S : Type} (np : NpRandom S) (sqrt : ℚ → ℚ)
    (stock_price mu base_sigma : ℚ) (days_to_simulate num_simulations : ℕ)
    (s : S) :
    run_monte_carlo np sqrt stock_price ⟨base_sigma, mu⟩ days_to_simulate
        num_simulations s
      = (let s0 := np.seed 42
         let r1 := run_single_simulation_np np sqrt stock_price mu
           (base_sigma * 1) days_to_simulate num_simulations
           (1/50) (-(1/25)) 5 (94/100) s0
         let r2 := run_single_simulation_np np sqrt stock_price mu
           (base_sigma * (5/4)) days_to_simulate num_simulations
           (1/50) (-(1/25)) 5 (94/100) r1.2
         let r3 := run_single_simulation_np np sqrt stock_price mu
           (base_sigma * (3/2)) days_to_simulate num_simulations
           (1/50) (-(1/25)) 5 (94/100) r2.2
         { stock_paths := r1.1.paths
           stock_final_prices := r1.1.final_prices
           stock_final_returns := r1.1.final_returns
           stress_results := [(1, r1.1), (5/4, r2.1), (3/2, r3.1)] }) := by
  simp only [run_monte_carlo, run_monte_carlo_seeded, vol_multipliers,
    List.foldl_cons, List.foldl_nil, List.nil_append, List.cons_append,
    List.append_nil, dict_find]
  norm_num [dict_find]

/-- Counterexample to C7 as stated: the engine's statistics interface
(`MonteCarloRiskEngine.__init__` calling `calculate_statistics` with
`risk_free_rate=0.042`) offers no drift-mode flag, and on a concrete
price history whose annualized historical mean return is 25200 % the
returned drift is still 4.2 %: the historical-mean mode does not exist. -/
theorem C7_drift_mode_counterexample :
    (engine_calculate_statistics id [100, 200] 2).stock_expected_return
      = 42/1000 ∧
    spec_historical_drift [100, 200] 2 = 252 ∧
    (42/1000 : ℚ) ≠ 252 := by
  refine ⟨rfl, ?_, by norm_num⟩
  norm_num [spec_historical_drift, pct_change, iloc_last, mean]

/-- C7 amended: the statistics estimator supports only the
risk-free-proxy drift mode: the returned expected return always equals
the supplied `risk_free_rate` parameter, and through the engine's
interface it is always the hardcoded 0.042; no configuration flag
selects an annualized-historical-mean drift. -/
theorem C7_drift_always_risk_free :
    (∀ (sqrt : ℚ → ℚ) (close : List ℚ) (w : ℕ) (r : ℚ),
      (calculate_statistics sqrt close w r).stock_expected_return = r) ∧
    (∀ (sqrt : ℚ → ℚ) (close : List ℚ) (w : ℕ),
      (engine_calculate_statistics sqrt close w).stock_expected_return
        = 42/1000) :=
  ⟨fun _ _ _ _ => rfl, fun _ _ _ => rfl⟩

/-- Counterexample to C8 as stated: on the three-point history
`[1, 2, 3]` with requested lookback 10, `calculate_statistics` does not
fail — `iloc[-10:]` silently clamps to the whole series and the
function returns the statistics of the available history (volatility
`sqrt(1/8)·sqrt(252)`, here with the identity in place of the root:
`63/2`), exactly as if the lookback had been 3. -/
theorem C8_short_history_counterexample :
    calculate_statistics id [1, 2, 3] 10 (1/25)
      = calculate_statistics id [1, 2, 3] 3 (1/25) ∧
    (calculate_statistics id [1, 2, 3] 10 (1/25)).stock_volatility
      = some (63/2) := by
  constructor
  · rfl
  · norm_num [calculate_statistics, iloc_last, pct_change, series_std,
      sample_var, mean, nmul]

/-- C8 amended: a price history shorter than the requested lookback is
not an error: `calculate_statistics` silently computes over the whole
available history (the `iloc[-w:]` window clamps).  A flat trailing
window (at least three equal closes, so at least two identical returns)
is likewise not an error and yields volatility exactly 0. -/
theorem C8_truncation_and_flat_volatility :
    (∀ (sqrt : ℚ → ℚ) (close : List ℚ) (w : ℕ) (r : ℚ),
      close.length ≤ w →
      calculate_statistics sqrt close w r
        = calculate_statistics sqrt close close.length r) ∧
    (∀ (sqrt : ℚ → ℚ) (close : List ℚ) (w : ℕ) (r c : ℚ),
      sqrt 0 = 0 → c ≠ 0 →
      3 ≤ (iloc_last w close).length →
      (∀ x ∈ iloc_last w close, x = c) →
      (calculate_statistics sqrt close w r).stock_volatility = some 0) := by
  constructor
  · intro sqrt close w r hlen
    have hwin : iloc_last w close = iloc_last close.length close := by
      unfold iloc_last
      by_cases hw : w = 0
      · subst hw
        have hz : close.length = 0 := Nat.le_zero.1 hlen
        rw [if_pos rfl, if_pos hz]
      · rw [if_neg hw]
        have hz : close.length - w = 0 := Nat.sub_eq_zero_of_le hlen
        rw [hz, List.drop_zero]
        by_cases hl : close.length = 0
        · rw [if_pos hl]
        · rw [if_neg hl, Nat.sub_self, List.drop_zero]
    simp only [calculate_statistics]
    rw [hwin]
  · intro sqrt close w r c h0 hc hlen3 hall
    have hret : ∀ x ∈ pct_change (iloc_last w close), x = 0 := by
      intro x hx
      simp only [pct_change, List.mem_map] at hx
      obtain ⟨p, hp, rfl⟩ := hx
      have h1 : p.1 ∈ iloc_last w close := (List.of_mem_zip hp).1
      have h2 : p.2 ∈ iloc_last w close :=
        List.mem_of_mem_tail (List.of_mem_zip hp).2
      rw [hall p.1 h1, hall p.2 h2]
      simp
    have hlenret : 2 ≤ (pct_change (iloc_last w close)).length := by
      simp only [pct_change, List.length_map, List.length_zip,
        List.length_tail]
      omega
    have hmean : mean (pct_change (iloc_last w close)) = 0 := by
      rw [mean, List.sum_eq_zero hret, zero_div]
    have hvar : sample_var (pct_change (iloc_last w close)) = 0 := by
      rw [sample_var]
      have hz : ∀ y ∈ (pct_change (iloc_last w close)).map
          (fun x => (x - mean (pct_change (iloc_last w close))) ^ 2), y = 0 := by
        intro y hy
        simp only [List.mem_map] at hy
        obtain ⟨x, hx, rfl⟩ := hy
        rw [hret x hx, hmean]
        ring
      rw [List.sum_eq_zero hz, zero_div]
    simp only [calculate_statistics, series_std, nmul]
    rw [if_neg (by omega), hvar, h0]
    simp

/-- Witness for C8 amended: truncation at `close = [1, 2]`, `w = 5`, and
the flat window at four equal closes of `7`. -/
theorem C8_truncation_and_flat_volatility_witness :
    (([1, 2] : List ℚ).length ≤ 5 ∧
      calculate_statistics id [1, 2] 5 0
        = calculate_statistics id [1, 2] (([1, 2] : List ℚ).length) 0) ∧
    (id (0 : ℚ) = 0 ∧ (7 : ℚ) ≠ 0 ∧
      3 ≤ (iloc_last 4 (List.replicate 4 (7 : ℚ))).length ∧
      (calculate_statistics id (List.replicate 4 (7 : ℚ)) 4 0).stock_volatility
        = some 0) := by
  have hl : 3 ≤ (iloc_last 4 (List.replicate 4 (7 : ℚ))).length := by
    norm_num [iloc_last]
  have hm : ∀ x ∈ iloc_last 4 (List.replicate 4 (7 : ℚ)), x = 7 := by
    intro x hx
    rw [iloc_last] at hx
    norm_num at hx
    exact hx
  exact ⟨⟨by norm_num,
      C8_truncation_and_flat_volatility.1 id [1, 2] 5 0 (by norm_num)⟩,
    ⟨rfl, by norm_num, hl,
      C8_truncation_and_flat_volatility.2 id (List.replicate 4 7) 4 0 7 rfl
        (by norm_num) hl hm⟩⟩

/-- Counterexample to C5 as stated: on a history of two closes (one
daily return — non-empty, as the claim requires), the 20- and 100-day
rolling volatilities are NaN, the NaN flows through `vol_ratio` and the
Python `min`/`max` clamps into the composite mean, and the returned
`risk_state_score` is NaN (`none`) rather than a number in [0, 100]. -/
theorem C5_risk_state_nan_counterexample :
    (calculate_risk_state_score id [100, 101] [0, 20] (-5) (-6)).risk_state_score
      = none := by
  norm_num [calculate_risk_state_score, pct_change, rolling_std_last, nmul,
    ndiv, vol_score, pymin, pymax]
  intro h
  exact Option.noConfusion h

/-- C5 amended: provided the history yields at least 100 daily returns
(so both rolling volatilities of the source are defined rather than
NaN) and a non-empty simulated final-return vector,
`calculate_risk_state_score` produces four sub-scores each in [0, 1]
(the three clamped ones saturate at 0 and 1; the jump sub-score has no
explicit lower clamp but its input is a non-negative frequency) and a
composite `risk_state_score` equal to the mean of the four sub-scores
times 100, always lying in [0, 100]. -/
theorem C5_risk_state_bounds (sqrt : ℚ → ℚ) (close : List ℚ)
    (final_returns : List ℚ) (var_99 cvar_99 : ℚ) (R : RiskState)
    (hR : R = calculate_risk_state_score sqrt close final_returns var_99 cvar_99)
    (hlen : 100 ≤ (pct_change close).length) (hfr : final_returns ≠ []) :
    ∃ v s : ℚ,
      vol_score R.vol_r = some v ∧ 0 ≤ v ∧ v ≤ 1 ∧
      0 ≤ tail_score R.tail_r ∧ tail_score R.tail_r ≤ 1 ∧
      0 ≤ jump_score R.jump_freq ∧ jump_score R.jump_freq ≤ 1 ∧
      0 ≤ width_score R.distribution_width ∧
      width_score R.distribution_width ≤ 1 ∧
      R.risk_state_score = some s ∧
      s = (v + tail_score R.tail_r + jump_score R.jump_freq
        + width_score R.distribution_width) / 4 * 100 ∧
      0 ≤ s ∧ s ≤ 100 := by
  subst hR
  set R := calculate_risk_state_score sqrt close final_returns var_99 cvar_99
    with hRdef
  have h20 : ¬((pct_change close).length < 20) := by omega
  have h100 : ¬((pct_change close).length < 100) := by omega
  have ha : nmul (rolling_std_last sqrt 20 (pct_change close)) (sqrt 252)
      = some (sqrt (sample_var ((pct_change close).drop
          ((pct_change close).length - 20))) * sqrt 252) := by
    rw [rolling_std_last, if_neg h20]; rfl
  have hb : nmul (rolling_std_last sqrt 100 (pct_change close)) (sqrt 252)
      = some (sqrt (sample_var ((pct_change close).drop
          ((pct_change close).length - 100))) * sqrt 252) := by
    rw [rolling_std_last, if_neg h100]; rfl
  obtain ⟨r, hr⟩ := vol_ratio_some
    (nmul (rolling_std_last sqrt 20 (pct_change close)) (sqrt 252))
    (nmul (rolling_std_last sqrt 100 (pct_change close)) (sqrt 252))
    ⟨_, ha⟩ ⟨_, hb⟩
  have hRv : R.vol_r
      = (if nmul (rolling_std_last sqrt 100 (pct_change close)) (sqrt 252)
            = some 0
         then some 1
         else ndiv
           (nmul (rolling_std_last sqrt 20 (pct_change close)) (sqrt 252))
           (nmul (rolling_std_last sqrt 100 (pct_change close)) (sqrt 252))) :=
    rfl
  have hRvol : R.vol_r = some r := hRv.trans hr
  have hvs : vol_score R.vol_r
      = some (min (max ((r - 7/10) / (15/10 - 7/10)) 0) 1) := by
    rw [hRvol]; rfl
  have hv01 := clamp01_bounds ((r - 7/10) / (15/10 - 7/10))
  have ht0 : 0 ≤ tail_score R.tail_r :=
    (clamp01_bounds ((R.tail_r - 11/10) / (16/10 - 11/10))).1
  have ht1 : tail_score R.tail_r ≤ 1 :=
    (clamp01_bounds ((R.tail_r - 11/10) / (16/10 - 11/10))).2
  have hw0 : 0 ≤ width_score R.distribution_width :=
    (clamp01_bounds ((R.distribution_width - 10) / (60 - 10))).1
  have hw1 : width_score R.distribution_width ≤ 1 :=
    (clamp01_bounds ((R.distribution_width - 10) / (60 - 10))).2
  have hjf : 0 ≤ R.jump_freq := by
    have hj : R.jump_freq
        = (((pct_change close).countP (fun x => x < -(3/100)) : ℚ)
            / ((pct_change close).length : ℚ)) := rfl
    rw [hj]
    positivity
  have hj0 : 0 ≤ jump_score R.jump_freq :=
    le_min (div_nonneg hjf (by norm_num)) zero_le_one
  have hj1 : jump_score R.jump_freq ≤ 1 := min_le_right _ _
  have hRs : R.risk_state_score
      = ((vol_score R.vol_r).map
          (fun v => (v + tail_score R.tail_r + jump_score R.jump_freq
            + width_score R.distribution_width) / 4)).map
          (fun c => c * 100) := rfl
  have hscore : R.risk_state_score
      = some ((min (max ((r - 7/10) / (15/10 - 7/10)) 0) 1
          + tail_score R.tail_r + jump_score R.jump_freq
          + width_score R.distribution_width) / 4 * 100) := by
    rw [hRs, hvs]; rfl
  refine ⟨min (max ((r - 7/10) / (15/10 - 7/10)) 0) 1,
    (min (max ((r - 7/10) / (15/10 - 7/10)) 0) 1
      + tail_score R.tail_r + jump_score R.jump_freq
      + width_score R.distribution_width) / 4 * 100,
    hvs, hv01.1, hv01.2, ht0, ht1, hj0, hj1, hw0, hw1,
    hscore, rfl, ?_, ?_⟩
  · linarith [hv01.1, ht0, hj0, hw0]
  · linarith [hv01.2, ht1, hj1, hw1]

/-- Witness for C5 amended: 101 constant closes (100 daily returns) and
a one-element final-return vector. -/
theorem C5_risk_state_bounds_witness :
    (100 ≤ (pct_change (List.replicate 101 (1 : ℚ))).length) ∧
    (([0] : List ℚ) ≠ []) ∧
    (∃ v s : ℚ,
      vol_score ((calculate_risk_state_score id (List.replicate 101 (1 : ℚ))
        [0] (-5) (-6)).vol_r) = some v ∧ 0 ≤ v ∧ v ≤ 1 ∧
      0 ≤ tail_score ((calculate_risk_state_score id
        (List.replicate 101 (1 : ℚ)) [0] (-5) (-6)).tail_r) ∧
      tail_score ((calculate_risk_state_score id
        (List.replicate 101 (1 : ℚ)) [0] (-5) (-6)).tail_r) ≤ 1 ∧
      0 ≤ jump_score ((calculate_risk_state_score id
        (List.replicate 101 (1 : ℚ)) [0] (-5) (-6)).jump_freq) ∧
      jump_score ((calculate_risk_state_score id
        (List.replicate 101 (1 : ℚ)) [0] (-5) (-6)).jump_freq) ≤ 1 ∧
      0 ≤ width_score ((calculate_risk_state_score id
        (List.replicate 101 (1 : ℚ)) [0] (-5) (-6)).distribution_width) ∧
      width_score ((calculate_risk_state_score id
        (List.replicate 101 (1 : ℚ)) [0] (-5) (-6)).distribution_width) ≤ 1 ∧
      (calculate_risk_state_score id (List.replicate 101 (1 : ℚ))
        [0] (-5) (-6)).risk_state_score = some s ∧
      s = (v + tail_score ((calculate_risk_state_score id
            (List.replicate 101 (1 : ℚ)) [0] (-5) (-6)).tail_r)
        + jump_score ((calculate_risk_state_score id
            (List.replicate 101 (1 : ℚ)) [0] (-5) (-6)).jump_freq)
        + width_score ((calculate_risk_state_score id
            (List.replicate 101 (1 : ℚ)) [0] (-5) (-6)).distribution_width))
          / 4 * 100 ∧
      0 ≤ s ∧ s ≤ 100) := by
  have hlen : 100 ≤ (pct_change (List.replicate 101 (1 : ℚ))).length := by
    have ht : (List.replicate 101 (1 : ℚ)).tail = List.replicate 100 1 := rfl
    simp [pct_change, ht]
  exact ⟨hlen, by simp,
    C5_risk_state_bounds id (List.replicate 101 1) [0] (-5) (-6) _ rfl hlen
      (by simp)⟩
